import Mathlib

/-!
Shallow embedding of `sys_monitor` (src/sys_monitor/computer_facts.py), the
query-and-resample pipeline of a monitoring dashboard, together with proofs
of the testable properties of its specification.

Modelling conventions:
* Timestamps are modelled as natural numbers counting minutes (the store
  query minute-truncates every timestamp via `date_trunc('minute', ts_utc)`,
  so minute granularity is exact).
* Fact values are modelled as rationals; the bucket mean of the source is
  exact rational arithmetic here.
* A pandas `NaN` produced by `asfreq` gap-filling is modelled as `none`.
* A raised Python exception is modelled as `Except.error` carrying the
  exception name.
-/

namespace SysMonitor

/-- Aggregation step of the resampler, `TIMESTEP_MINS = 5` in
computer_facts.py line 15.  The resampling functions below take the step as
an explicit argument (the spec treats it as configuration, observed to vary
5-10 minutes across revisions); this constant is the value of the source
revision under src/. -/
def TIMESTEP_MINS : Nat := 5

/-- Lookback window of the dashboard queries, line 16 of computer_facts.py. -/
def PLOT_TIME_RANGE_HOURS : Nat := 24

/-- A Fact Sample: one row returned by the store query (alias `ts` of
`date_trunc('minute', ts_utc) at time zone tz`, `fact_name`, averaged
`fact_value`). -/
structure Sample where
  ts : Nat
  fact_name : String
  fact_value : ℚ
deriving DecidableEq, Repr

/-- A row of the Bucketed Series produced by `regularize_timeseries`:
`fact_value = none` models the `NaN` that pandas `asfreq` inserts at a
boundary with no underlying samples. -/
structure Record where
  ts : Nat
  fact_name : String
  fact_value : Option ℚ
deriving DecidableEq, Repr

/-- Insertion step of a generic insertion sort with a boolean comparison.
Used to model the sorted orders that `pandas.groupby` and Python `sorted`
produce. -/
def insertLe (le : α → α → Bool) (x : α) : List α → List α
  | [] => [x]
  | y :: ys => if le x y then x :: y :: ys else y :: insertLe le x ys

/-- Generic insertion sort with a boolean comparison. -/
def sortLe (le : α → α → Bool) : List α → List α
  | [] => []
  | x :: xs => insertLe le x (sortLe le xs)

/-- Flooring of a timestamp to an interval boundary: the
`d.ts.dt.floor(f"{TIMESTEP_MINS}min")` of computer_facts.py line 66,
truncation toward the past onto multiples of the step. -/
def floorTs (step t : Nat) : Nat := step * (t / step)

/-- The floored timestamps of a list of samples. -/
def flooredTs (step : Nat) (g : List Sample) : List Nat :=
  g.map fun s => floorTs step s.ts

/-- Minimum floored timestamp of a group of samples (0 on the empty group,
which the callers below never use). -/
def minFloored (step : Nat) (g : List Sample) : Nat :=
  match flooredTs step g with
  | [] => 0
  | t :: ts => ts.foldl min t

/-- Maximum floored timestamp of a group of samples. -/
def maxFloored (step : Nat) (g : List Sample) : Nat :=
  match flooredTs step g with
  | [] => 0
  | t :: ts => ts.foldl max t

/-- Mean of the values of the samples of `g` whose timestamp floors to the
boundary `b`; `none` when no sample floors to `b`.  Models the
`groupby("ts").mean()` of line 68 combined with the `NaN` gap fill of
`asfreq` on line 69. -/
def bucketMean (step : Nat) (g : List Sample) (b : Nat) : Option ℚ :=
  let vals := (g.filter fun s => decide (floorTs step s.ts = b)).map Sample.fact_value
  if vals.isEmpty then none else some (vals.sum / (vals.length : ℚ))

/-- The distinct fact names of the input in ascending order: the group keys
of `pd.DataFrame(data).groupby("fact_name")` on line 64 (pandas sorts group
keys). -/
def factNames (data : List Sample) : List String :=
  sortLe (fun a b => decide (a ≤ b)) (data.map Sample.fact_name).dedup

/-- The Bucketed Series of one fact_name partition: lines 65-74 of
computer_facts.py.  Floor every timestamp to the step, average per
boundary, and reindex (`asfreq`) onto the full grid of boundaries from the
minimum to the maximum floored timestamp, with `none` at boundaries that
have no samples. -/
def regularizeGroup (step : Nat) (key : String) (g : List Sample) : List Record :=
  if g.isEmpty then []
  else
    (List.range ((maxFloored step g - minFloored step g) / step + 1)).map fun i =>
      ⟨minFloored step g + step * i, key,
        bucketMean step g (minFloored step g + step * i)⟩

/-- Embeds `regularize_timeseries` (computer_facts.py lines 61-77) at an
explicit step.  On the empty input `pd.DataFrame([])` has no columns at
all, so `.groupby("fact_name")` raises `KeyError: 'fact_name'`; this is
modelled as `Except.error`.  Otherwise it returns the concatenation of the
per-fact Bucketed Series in ascending order of fact_name. -/
def regularize_timeseries (step : Nat) (data : List Sample) : Except String (List Record) :=
  if data.isEmpty then Except.error "KeyError: fact_name"
  else
    Except.ok <| (factNames data).flatMap fun key =>
      regularizeGroup step key (data.filter fun s => decide (s.fact_name = key))

/-- A line glyph added to a bokeh figure by `plot.line(x, y, legend_label=key,
color=cmap.pop(), line_width=2)` on line 105. -/
structure Line where
  legend_label : String
  color : String
  pts : List (Nat × Option ℚ)
deriving DecidableEq, Repr

/-- The presentational state of a bokeh figure that `make_fact_lines`
touches: the list of line glyphs drawn on it. -/
structure Figure where
  lines : List Line
deriving DecidableEq, Repr

/-- The eight colors of the ColorBrewer Dark2 palette, largest size of
`bokeh.palettes.Dark2`. -/
def Dark2_8 : List String :=
  ["#1b9e77", "#d95f02", "#7570b3", "#e7298a", "#66a61e", "#e6ab02",
   "#a6761d", "#666666"]

/-- Models `bokeh.palettes.Dark2` (bokeh 2.3.0), the `COLORMAP` of
computer_facts.py line 17: a dictionary whose keys are the palette sizes 3
through 8; looking up any other size raises `KeyError`, modelled as
`none`. -/
def COLORMAP (n : Nat) : Option (List String) :=
  if 3 ≤ n ∧ n ≤ 8 then some (Dark2_8.take n) else none

/-- The distinct fact names of a record list in ascending order: the group
keys of `itertools.groupby(sorted(data, key=fact_name))` on lines 101-103. -/
def recordNames (data : List Record) : List String :=
  sortLe (fun a b => decide (a ≤ b)) (data.map Record.fact_name).dedup

/-- The loop body of `make_fact_lines`: one line per fact-name group (groups
in ascending order of name, points in input order within a group), taking
its color with `cmap.pop()` from the END of the mutable color list; popping
an empty list raises `IndexError`. -/
def drawLines (data : List Record) : List String → List String → Except String (List Line)
  | _, [] => Except.ok []
  | cmap, key :: keys =>
    match cmap.getLast? with
    | none => Except.error "IndexError: pop from empty list"
    | some c =>
      match drawLines data cmap.dropLast keys with
      | Except.error e => Except.error e
      | Except.ok rest =>
        Except.ok (⟨key, c,
          (data.filter fun r => decide (r.fact_name = key)).map fun r =>
            (r.ts, r.fact_value)⟩ :: rest)

/-- Embeds `make_fact_lines` (computer_facts.py lines 99-106):
`COLORMAP[len({i["fact_name"] for i in data})]` raises `KeyError` when the
number of distinct fact names is not a key of the palette dictionary;
otherwise one line per fact-name group is drawn on the figure. -/
def make_fact_lines (plot : Figure) (data : List Record) : Except String Figure :=
  match COLORMAP (data.map Record.fact_name).dedup.length with
  | none => Except.error "KeyError"
  | some cmap =>
    match drawLines data cmap (recordNames data) with
    | Except.error e => Except.error e
    | Except.ok ls => Except.ok ⟨plot.lines ++ ls⟩

/-- A row of the `public.computer_facts` table (schema per spec section 6:
`ts_utc`, `fact_name`, `fact_value`), timestamps again in minutes. -/
structure FactRow where
  ts_utc : Nat
  fact_name : String
  fact_value : ℚ
deriving DecidableEq, Repr

/-- Modelled from the spec: the external Postgres store executing
`SQL_TEMPLATE` (the engine itself is not part of this repository).  Per the
conceptual SQL of spec section 6: keep the rows with `fact_name` in the
requested set and `ts_utc >= lower bound`, group by minute-truncated
timestamp (already minutes here) and fact_name, average the values, and
order by timestamp then fact_name. -/
def run_sql_template (db : List FactRow) (facts : List String) (lb : Nat) : List Sample :=
  let matching := db.filter fun r => decide (r.fact_name ∈ facts ∧ lb ≤ r.ts_utc)
  let tss := sortLe (fun a b => decide (a ≤ b)) (matching.map FactRow.ts_utc).dedup
  tss.flatMap fun t =>
    let atT := matching.filter fun r => decide (r.ts_utc = t)
    (sortLe (fun a b => decide (a ≤ b)) (atT.map FactRow.fact_name).dedup).map fun k =>
      let vals := (atT.filter fun r => decide (r.fact_name = k)).map FactRow.fact_value
      ⟨t, k, vals.sum / (vals.length : ℚ)⟩

/-- Embeds `db_query` (computer_facts.py lines 38-58) over a modelled store:
run the query, then (with the default `regularize=True`) pass the rows
through `regularize_timeseries` at `TIMESTEP_MINS`. -/
def db_query (db : List FactRow) (facts : List String) (lb : Nat) (reg : Bool) :
    Except String (List Sample ⊕ List Record) :=
  let data := run_sql_template db facts lb
  if reg then
    match regularize_timeseries TIMESTEP_MINS data with
    | Except.error e => Except.error e
    | Except.ok out => Except.ok (Sum.inr out)
  else Except.ok (Sum.inl data)

/-- Sorting of samples by timestamp with a stable insertion sort: within one
fact-name group, `sorted(data, key=lambda x: (x["fact_name"], x["ts"]))` of
line 177 orders samples by `ts`. -/
def sortByTs (l : List Sample) : List Sample :=
  sortLe (fun a b => decide (a.ts ≤ b.ts)) l

/-- Embeds the pure part of `render_latest_facts` (computer_facts.py lines
174-181) applied to the rows `data` that `db_query(..., regularize=False)`
returned for the lookback window: sort by `(fact_name, ts)`, group by
fact_name, keep the last element of each group, and delete the redundant
`fact_name` key, yielding the mapping `fact_name -> (ts, fact_value)`. -/
def render_latest_facts (data : List Sample) : List (String × Nat × ℚ) :=
  (factNames data).filterMap fun k =>
    match (sortByTs (data.filter fun s => decide (s.fact_name = k))).getLast? with
    | none => none
    | some s => some (k, s.ts, s.fact_value)

/-! Generic helper lemmas about the sorting and folding combinators used by
the embedding. -/

theorem insertLe_perm (le : α → α → Bool) (x : α) (l : List α) :
    (insertLe le x l).Perm (x :: l) := by
  induction l with
  | nil => simp [insertLe]
  | cons y ys ih =>
    by_cases h : le x y = true
    · simp [insertLe, h]
    · simp only [insertLe, if_neg h]
      exact (ih.cons y).trans (List.Perm.swap x y ys)

theorem sortLe_perm (le : α → α → Bool) (l : List α) : (sortLe le l).Perm l := by
  induction l with
  | nil => simp [sortLe]
  | cons x xs ih => exact (insertLe_perm le x (sortLe le xs)).trans (ih.cons x)

theorem mem_sortLe (le : α → α → Bool) (l : List α) (x : α) :
    x ∈ sortLe le l ↔ x ∈ l :=
  (sortLe_perm le l).mem_iff

theorem insertLe_pairwise (le : α → α → Bool)
    (htrans : ∀ a b c, le a b = true → le b c = true → le a c = true)
    (htot : ∀ a b, le a b = true ∨ le b a = true)
    (x : α) (l : List α) (hl : l.Pairwise fun a b => le a b = true) :
    (insertLe le x l).Pairwise (fun a b => le a b = true) := by
  induction l with
  | nil => simp [insertLe]
  | cons y ys ih =>
    rw [List.pairwise_cons] at hl
    obtain ⟨hy, hys⟩ := hl
    by_cases h : le x y = true
    · simp only [insertLe, if_pos h, List.pairwise_cons]
      refine ⟨?_, hy, hys⟩
      intro z hz
      rcases List.mem_cons.1 hz with rfl | hz
      · exact h
      · exact htrans x y z h (hy z hz)
    · simp only [insertLe, if_neg h, List.pairwise_cons]
      refine ⟨?_, ih hys⟩
      intro z hz
      rcases List.mem_cons.1 ((insertLe_perm le x ys).mem_iff.1 hz) with rfl | hz2
      · rcases htot z y with hxz | hzx
        · exact absurd hxz h
        · exact hzx
      · exact hy z hz2

theorem sortLe_pairwise (le : α → α → Bool)
    (htrans : ∀ a b c, le a b = true → le b c = true → le a c = true)
    (htot : ∀ a b, le a b = true ∨ le b a = true) (l : List α) :
    (sortLe le l).Pairwise (fun a b => le a b = true) := by
  induction l with
  | nil => simp [sortLe]
  | cons x xs ih => exact insertLe_pairwise le htrans htot x _ ih

theorem getLast?_some_of_ne_nil : ∀ {l : List α}, l ≠ [] → ∃ m, l.getLast? = some m
  | [], h => absurd rfl h
  | [a], _ => ⟨a, rfl⟩
  | a :: b :: t, _ => by
    rw [List.getLast?_cons_cons]
    exact getLast?_some_of_ne_nil (List.cons_ne_nil b t)

theorem mem_of_getLast?_eq : ∀ {l : List α} {m : α}, l.getLast? = some m → m ∈ l
  | [], m, h => by simp at h
  | [a], m, h => by
    simp only [List.getLast?_singleton, Option.some.injEq] at h
    simp [h]
  | a :: b :: t, m, h => by
    rw [List.getLast?_cons_cons] at h
    exact List.mem_cons_of_mem a (mem_of_getLast?_eq h)

theorem pairwise_rel_getLast {R : α → α → Prop} :
    ∀ {l : List α} {m : α}, l.Pairwise R → l.getLast? = some m →
      ∀ x ∈ l, x = m ∨ R x m
  | [], m, _, hm, x, hx => by simp at hx
  | [a], m, _, hm, x, hx => by
    simp only [List.getLast?_singleton, Option.some.injEq] at hm
    simp only [List.mem_singleton] at hx
    exact Or.inl (hx.trans hm)
  | a :: b :: t, m, hp, hm, x, hx => by
    rw [List.getLast?_cons_cons] at hm
    rw [List.pairwise_cons] at hp
    obtain ⟨ha, hp2⟩ := hp
    rcases List.mem_cons.1 hx with rfl | hx
    · exact Or.inr (ha m (mem_of_getLast?_eq hm))
    · exact pairwise_rel_getLast hp2 hm x hx

theorem foldl_min_le_init (l : List ℕ) (a : ℕ) : l.foldl min a ≤ a := by
  induction l generalizing a with
  | nil => exact le_refl a
  | cons b t ih => exact le_trans (ih (min a b)) (min_le_left a b)

theorem foldl_min_le_mem (l : List ℕ) (a x : ℕ) (hx : x ∈ l) : l.foldl min a ≤ x := by
  induction l generalizing a with
  | nil => cases hx
  | cons b t ih =>
    rcases List.mem_cons.1 hx with rfl | hx
    · exact le_trans (foldl_min_le_init t (min a x)) (min_le_right a x)
    · exact ih (min a b) hx

theorem foldl_min_cases (l : List ℕ) (a : ℕ) : l.foldl min a = a ∨ l.foldl min a ∈ l := by
  induction l generalizing a with
  | nil => exact Or.inl rfl
  | cons b t ih =>
    rcases ih (min a b) with h | h
    · rcases min_choice a b with hab | hab
      · exact Or.inl (by rw [List.foldl_cons, h, hab])
      · exact Or.inr (by rw [List.foldl_cons, h, hab]; exact List.mem_cons_self b t)
    · exact Or.inr (List.mem_cons_of_mem b h)

theorem le_foldl_max_init (l : List ℕ) (a : ℕ) : a ≤ l.foldl max a := by
  induction l generalizing a with
  | nil => exact le_refl a
  | cons b t ih => exact le_trans (le_max_left a b) (ih (max a b))

theorem le_foldl_max_mem (l : List ℕ) (a x : ℕ) (hx : x ∈ l) : x ≤ l.foldl max a := by
  induction l generalizing a with
  | nil => cases hx
  | cons b t ih =>
    rcases List.mem_cons.1 hx with rfl | hx
    · exact le_trans (le_max_right a x) (le_foldl_max_init t (max a x))
    · exact ih (max a b) hx

theorem foldl_max_cases (l : List ℕ) (a : ℕ) : l.foldl max a = a ∨ l.foldl max a ∈ l := by
  induction l generalizing a with
  | nil => exact Or.inl rfl
  | cons b t ih =>
    rcases ih (max a b) with h | h
    · rcases max_choice a b with hab | hab
      · exact Or.inl (by rw [List.foldl_cons, h, hab])
      · exact Or.inr (by rw [List.foldl_cons, h, hab]; exact List.mem_cons_self b t)
    · exact Or.inr (List.mem_cons_of_mem b h)

/-! Lemmas about the floored-timestamp bounds of a sample group. -/

theorem floorTs_dvd (step t : Nat) : step ∣ floorTs step t := ⟨t / step, rfl⟩

theorem dvd_of_mem_flooredTs {step : Nat} {g : List Sample} {x : Nat}
    (hx : x ∈ flooredTs step g) : step ∣ x := by
  obtain ⟨s, _, rfl⟩ := List.mem_map.1 hx
  exact floorTs_dvd step s.ts

theorem minFloored_le {step : Nat} {g : List Sample} {s : Sample} (hs : s ∈ g) :
    minFloored step g ≤ floorTs step s.ts := by
  cases g with
  | nil => cases hs
  | cons s0 t =>
    simp only [minFloored, flooredTs, List.map_cons]
    rcases List.mem_cons.1 hs with rfl | hs
    · exact foldl_min_le_init _ _
    · exact foldl_min_le_mem _ _ _ (List.mem_map_of_mem _ hs)

theorem le_maxFloored {step : Nat} {g : List Sample} {s : Sample} (hs : s ∈ g) :
    floorTs step s.ts ≤ maxFloored step g := by
  cases g with
  | nil => cases hs
  | cons s0 t =>
    simp only [maxFloored, flooredTs, List.map_cons]
    rcases List.mem_cons.1 hs with rfl | hs
    · exact le_foldl_max_init _ _
    · exact le_foldl_max_mem _ _ _ (List.mem_map_of_mem _ hs)

theorem minFloored_mem {step : Nat} {g : List Sample} (h : g ≠ []) :
    minFloored step g ∈ flooredTs step g := by
  cases g with
  | nil => exact absurd rfl h
  | cons s0 t =>
    simp only [minFloored, flooredTs, List.map_cons]
    rcases foldl_min_cases (t.map fun s => floorTs step s.ts) (floorTs step s0.ts)
        with hc | hc
    · rw [hc]; exact List.mem_cons_self _ _
    · exact List.mem_cons_of_mem _ hc

theorem maxFloored_mem {step : Nat} {g : List Sample} (h : g ≠ []) :
    maxFloored step g ∈ flooredTs step g := by
  cases g with
  | nil => exact absurd rfl h
  | cons s0 t =>
    simp only [maxFloored, flooredTs, List.map_cons]
    rcases foldl_max_cases (t.map fun s => floorTs step s.ts) (floorTs step s0.ts)
        with hc | hc
    · rw [hc]; exact List.mem_cons_self _ _
    · exact List.mem_cons_of_mem _ hc

theorem minFloored_dvd {step : Nat} {g : List Sample} (h : g ≠ []) :
    step ∣ minFloored step g :=
  dvd_of_mem_flooredTs (minFloored_mem h)

theorem maxFloored_dvd {step : Nat} {g : List Sample} (h : g ≠ []) :
    step ∣ maxFloored step g :=
  dvd_of_mem_flooredTs (maxFloored_mem h)

theorem minFloored_le_maxFloored {step : Nat} {g : List Sample} (h : g ≠ []) :
    minFloored step g ≤ maxFloored step g := by
  cases g with
  | nil => exact absurd rfl h
  | cons s0 t =>
    exact le_trans (minFloored_le (List.mem_cons_self s0 t))
      (le_maxFloored (List.mem_cons_self s0 t))

/-! Characterization of one Bucketed Series (`regularizeGroup`). -/

theorem regularizeGroup_eq_of_ne_nil {step : Nat} {key : String} {g : List Sample}
    (h : g ≠ []) :
    regularizeGroup step key g =
      (List.range ((maxFloored step g - minFloored step g) / step + 1)).map fun i =>
        ⟨minFloored step g + step * i, key,
          bucketMean step g (minFloored step g + step * i)⟩ := by
  cases g with
  | nil => exact absurd rfl h
  | cons s0 t => rfl

theorem regularizeGroup_ts_map {step : Nat} {key : String} {g : List Sample}
    (h : g ≠ []) :
    (regularizeGroup step key g).map Record.ts =
      (List.range ((maxFloored step g - minFloored step g) / step + 1)).map fun i =>
        minFloored step g + step * i := by
  rw [regularizeGroup_eq_of_ne_nil h, List.map_map]
  rfl

theorem regularizeGroup_name {step : Nat} {key : String} {g : List Sample} {r : Record}
    (hr : r ∈ regularizeGroup step key g) : r.fact_name = key := by
  rcases eq_or_ne g [] with rfl | h
  · simp [regularizeGroup] at hr
  · rw [regularizeGroup_eq_of_ne_nil h] at hr
    obtain ⟨i, _, rfl⟩ := List.mem_map.1 hr
    rfl

theorem regularizeGroup_ts_nodup (step : Nat) (hstep : 0 < step) (key : String)
    (g : List Sample) : ((regularizeGroup step key g).map Record.ts).Nodup := by
  rcases eq_or_ne g [] with rfl | h
  · simp [regularizeGroup]
  · rw [regularizeGroup_ts_map h]
    refine List.Nodup.map ?_ (List.nodup_range _)
    intro i j hij
    exact Nat.eq_of_mul_eq_mul_left hstep (Nat.add_left_cancel hij)

theorem mem_regularizeGroup_ts {step : Nat} (hstep : 0 < step) {key : String}
    {g : List Sample} (h : g ≠ []) (b : Nat) :
    b ∈ (regularizeGroup step key g).map Record.ts ↔
      step ∣ b ∧ minFloored step g ≤ b ∧ b ≤ maxFloored step g := by
  obtain ⟨a, ha⟩ := @minFloored_dvd step g h
  obtain ⟨c, hc⟩ := @maxFloored_dvd step g h
  have hlohi : minFloored step g ≤ maxFloored step g := minFloored_le_maxFloored h
  have hdiv : (maxFloored step g - minFloored step g) / step = c - a := by
    rw [ha, hc, ← Nat.mul_sub, Nat.mul_div_cancel_left _ hstep]
  rw [regularizeGroup_ts_map h]
  constructor
  · intro hb
    obtain ⟨i, hi, rfl⟩ := List.mem_map.1 hb
    rw [List.mem_range, hdiv] at hi
    have hac : a ≤ c := Nat.le_of_mul_le_mul_left (ha ▸ hc ▸ hlohi) hstep
    refine ⟨⟨a + i, by rw [ha, Nat.mul_add]⟩, Nat.le_add_right _ _, ?_⟩
    rw [ha, hc, ← Nat.mul_add]
    exact Nat.mul_le_mul_left step (by omega)
  · rintro ⟨⟨e, rfl⟩, hlo, hhi⟩
    rw [List.mem_map]
    have hae : a ≤ e := Nat.le_of_mul_le_mul_left (ha ▸ hlo) hstep
    have hec : e ≤ c := Nat.le_of_mul_le_mul_left (hc ▸ hhi) hstep
    refine ⟨e - a, ?_, ?_⟩
    · rw [List.mem_range, hdiv]; omega
    · rw [ha, ← Nat.mul_add]
      congr 1
      omega

theorem regularizeGroup_absent {step : Nat} {key : String} {g : List Sample} {r : Record}
    (hr : r ∈ regularizeGroup step key g)
    (habs : ∀ s ∈ g, floorTs step s.ts ≠ r.ts) : r.fact_value = none := by
  rcases eq_or_ne g [] with rfl | h
  · simp [regularizeGroup] at hr
  · rw [regularizeGroup_eq_of_ne_nil h] at hr
    obtain ⟨i, _, rfl⟩ := List.mem_map.1 hr
    have hfil : (g.filter fun s =>
        decide (floorTs step s.ts = minFloored step g + step * i)) = [] := by
      rw [List.filter_eq_nil_iff]
      intro s hs
      simpa using habs s hs
    simp [bucketMean, hfil]

/-! Reduction of the resampler on single-fact input. -/

theorem list_nodup_mem_singleton {l : List String} {k : String}
    (hnd : l.Nodup) (hmem : ∀ x, x ∈ l ↔ x = k) : l = [k] := by
  cases l with
  | nil => exact absurd ((hmem k).2 rfl) (List.not_mem_nil k)
  | cons x xs =>
    have hx : x = k := (hmem x).1 (List.mem_cons_self x xs)
    subst hx
    cases xs with
    | nil => rfl
    | cons y ys =>
      have hy : y = x := (hmem y).1 (List.mem_cons_of_mem x (List.mem_cons_self y ys))
      rw [List.nodup_cons] at hnd
      apply absurd ?_ hnd.1
      rw [← hy]
      exact List.mem_cons_self y ys

theorem factNames_eq_singleton {data : List Sample} {k : String} (hne : data ≠ [])
    (hk : ∀ s ∈ data, s.fact_name = k) : factNames data = [k] := by
  have hd : (data.map Sample.fact_name).dedup = [k] := by
    refine list_nodup_mem_singleton (List.nodup_dedup _) ?_
    intro x
    rw [List.mem_dedup, List.mem_map]
    constructor
    · rintro ⟨s, hs, rfl⟩
      exact hk s hs
    · rintro rfl
      obtain ⟨s, hs⟩ := List.exists_mem_of_ne_nil data hne
      exact ⟨s, hs, hk s hs⟩
  rw [factNames, hd]
  rfl

theorem regularize_timeseries_single_fact {step : Nat} {k : String} {data : List Sample}
    (hne : data ≠ []) (hk : ∀ s ∈ data, s.fact_name = k) :
    regularize_timeseries step data = Except.ok (regularizeGroup step k data) := by
  have hie : data.isEmpty = false := by
    cases data with
    | nil => exact absurd rfl hne
    | cons a t => rfl
  have hfil : (data.filter fun s => decide (s.fact_name = k)) = data := by
    rw [List.filter_eq_self]
    intro s hs
    simp [hk s hs]
  simp only [regularize_timeseries, hie, Bool.false_eq_true, if_false,
    factNames_eq_singleton hne hk, List.flatMap_cons, List.flatMap_nil,
    List.append_nil, hfil]

/-! Relating the flat output of the resampler to its per-fact series. -/

theorem mem_factNames {data : List Sample} {k : String} :
    k ∈ factNames data ↔ ∃ s ∈ data, s.fact_name = k := by
  rw [factNames, mem_sortLe, List.mem_dedup, List.mem_map]

theorem factNames_nodup (data : List Sample) : (factNames data).Nodup :=
  ((sortLe_perm _ _).nodup_iff).2 (List.nodup_dedup _)

theorem filter_flatMap_groups (step : Nat) (data : List Sample) (k : String) :
    ∀ keys : List String, keys.Nodup →
      ((keys.flatMap fun key =>
          regularizeGroup step key (data.filter fun s => decide (s.fact_name = key))).filter
        fun r => decide (r.fact_name = k)) =
      if k ∈ keys then
        regularizeGroup step k (data.filter fun s => decide (s.fact_name = k))
      else []
  | [], _ => by simp
  | key :: keys, hnd => by
    rw [List.nodup_cons] at hnd
    rw [List.flatMap_cons, List.filter_append,
      filter_flatMap_groups step data k keys hnd.2]
    by_cases hkey : key = k
    · subst hkey
      rw [if_neg hnd.1, if_pos (List.mem_cons_self key keys), List.append_nil,
        List.filter_eq_self.2]
      intro r hr
      simp [regularizeGroup_name hr]
    · have h1 : ((regularizeGroup step key
          (data.filter fun s => decide (s.fact_name = key))).filter
            fun r => decide (r.fact_name = k)) = [] := by
        rw [List.filter_eq_nil_iff]
        intro r hr
        simp [regularizeGroup_name hr, hkey]
      rw [h1, List.nil_append]
      by_cases hmem : k ∈ keys
      · rw [if_pos hmem, if_pos (List.mem_cons_of_mem key hmem)]
      · have hnc : k ∉ key :: keys := by
          intro hc
          rcases List.mem_cons.1 hc with rfl | hc
          · exact hkey rfl
          · exact hmem hc
        rw [if_neg hmem, if_neg hnc]

theorem regularize_filter_eq {step : Nat} {data : List Sample} {out : List Record}
    (h : regularize_timeseries step data = Except.ok out) (k : String) :
    out.filter (fun r => decide (r.fact_name = k)) =
      regularizeGroup step k (data.filter fun s => decide (s.fact_name = k)) := by
  unfold regularize_timeseries at h
  by_cases hie : data.isEmpty = true
  · rw [if_pos hie] at h
    exact absurd h (by simp)
  · rw [if_neg hie] at h
    have hout := (Except.ok.inj h).symm
    subst hout
    rw [filter_flatMap_groups step data k (factNames data) (factNames_nodup data)]
    by_cases hmem : k ∈ factNames data
    · rw [if_pos hmem]
    · rw [if_neg hmem]
      have hfil : (data.filter fun s => decide (s.fact_name = k)) = [] := by
        rw [List.filter_eq_nil_iff]
        intro s hs hdec
        exact hmem (mem_factNames.2 ⟨s, hs, by simpa using hdec⟩)
      rw [hfil]
      rfl

/-! Lemmas about the timestamp sort used by the latest-values endpoint. -/

theorem sortByTs_perm (l : List Sample) : (sortByTs l).Perm l :=
  sortLe_perm _ l

theorem sortByTs_ne_nil {l : List Sample} (h : l ≠ []) : sortByTs l ≠ [] := by
  intro hc
  have hlen := (sortByTs_perm l).length_eq
  rw [hc] at hlen
  exact h (List.length_eq_zero.1 hlen.symm)

theorem sortByTs_pairwise (l : List Sample) :
    (sortByTs l).Pairwise fun a b => a.ts ≤ b.ts := by
  have h := sortLe_pairwise (fun a b => decide (a.ts ≤ b.ts)) ?_ ?_ l
  · exact h.imp fun hab => of_decide_eq_true hab
  · intro a b c hab hbc
    simp only [decide_eq_true_eq] at hab hbc ⊢
    exact le_trans hab hbc
  · intro a b
    rcases Nat.le_total a.ts b.ts with hab | hba
    · exact Or.inl (decide_eq_true hab)
    · exact Or.inr (decide_eq_true hba)

theorem filter_ne_nil_of_mem_factNames {data : List Sample} {k : String}
    (h : k ∈ factNames data) :
    (data.filter fun s => decide (s.fact_name = k)) ≠ [] := by
  obtain ⟨s, hs, hname⟩ := mem_factNames.1 h
  intro hc
  rw [List.filter_eq_nil_iff] at hc
  exact hc s hs (by simp [hname])

theorem render_latest_map_fst_aux (data : List Sample) :
    ∀ keys : List String,
      (∀ k ∈ keys, (data.filter fun s => decide (s.fact_name = k)) ≠ []) →
      ((keys.filterMap fun k =>
          match (sortByTs (data.filter fun s => decide (s.fact_name = k))).getLast? with
          | none => none
          | some s => some (k, s.ts, s.fact_value)).map Prod.fst) = keys
  | [], _ => rfl
  | k :: keys, hk => by
    obtain ⟨m, hm⟩ := getLast?_some_of_ne_nil
      (sortByTs_ne_nil (hk k (List.mem_cons_self k keys)))
    rw [List.filterMap_cons, hm]
    simp only [List.map_cons]
    rw [render_latest_map_fst_aux data keys fun q hq => hk q (List.mem_cons_of_mem k hq)]

theorem chain_lo_step (lo step n : Nat) (hstep : 0 < step) :
    List.Chain' (fun a b : Nat => lo + step * a < lo + step * b ∧
      lo + step * b = (lo + step * a) + step) (List.range (n + 1)) := by
  have hs : n + 1 = Nat.succ n := rfl
  rw [hs, List.chain'_range_succ]
  intro m _
  have hmul : step * Nat.succ m = step * m + step := Nat.mul_succ step m
  omega

/-- C1: for a non-empty collection of samples all sharing one fact_name, the
resampler succeeds, and its Bucketed Series contains every interval boundary
(multiple of the step) between the minimum and the maximum floored timestamp
exactly once — no gaps, no duplicates — with an explicit `none` absence
marker at every boundary that has no underlying sample. -/
theorem claim1_bucket_boundaries_exact (step : Nat) (k : String) (data : List Sample)
    (hstep : 0 < step) (hne : data ≠ []) (hk : ∀ s ∈ data, s.fact_name = k) :
    ∃ out, regularize_timeseries step data = Except.ok out ∧
      (out.map Record.ts).Nodup ∧
      (∀ b, b ∈ out.map Record.ts ↔
        step ∣ b ∧ minFloored step data ≤ b ∧ b ≤ maxFloored step data) ∧
      ∀ r ∈ out, (∀ s ∈ data, floorTs step s.ts ≠ r.ts) → r.fact_value = none :=
  ⟨regularizeGroup step k data, regularize_timeseries_single_fact hne hk,
    regularizeGroup_ts_nodup step hstep k data,
    fun b => mem_regularizeGroup_ts hstep hne b,
    fun r hr habs => regularizeGroup_absent hr habs⟩

/-- Witness for C1 at step 5 with samples at minutes 0 and 12 of fact "a". -/
theorem claim1_witness :
    ∃ out, regularize_timeseries 5 [⟨0, "a", 60⟩, ⟨12, "a", 80⟩] = Except.ok out ∧
      (out.map Record.ts).Nodup ∧
      (∀ b, b ∈ out.map Record.ts ↔
        5 ∣ b ∧ minFloored 5 [⟨0, "a", 60⟩, ⟨12, "a", 80⟩] ≤ b ∧
          b ≤ maxFloored 5 [⟨0, "a", 60⟩, ⟨12, "a", 80⟩]) ∧
      ∀ r ∈ out, (∀ s ∈ ([⟨0, "a", 60⟩, ⟨12, "a", 80⟩] : List Sample),
          floorTs 5 s.ts ≠ r.ts) → r.fact_value = none :=
  claim1_bucket_boundaries_exact 5 "a" [⟨0, "a", 60⟩, ⟨12, "a", 80⟩]
    (by norm_num) (List.cons_ne_nil _ _) (by decide)

/-- C2 (counterexample): on the empty input collection the resampler does
not return an empty collection — `pd.DataFrame([])` has no `fact_name`
column, so `groupby` raises `KeyError`. -/
theorem claim2_counterexample :
    regularize_timeseries TIMESTEP_MINS [] = Except.error "KeyError: fact_name" ∧
      regularize_timeseries TIMESTEP_MINS [] ≠ Except.ok [] :=
  ⟨rfl, fun hc => Except.noConfusion hc⟩

/-- C2 (amended): for the empty input collection, `regularize_timeseries`
raises `KeyError` (pandas `groupby` on a DataFrame with no columns) at every
step, rather than returning an empty collection. -/
theorem claim2_empty_raises (step : Nat) :
    regularize_timeseries step [] = Except.error "KeyError: fact_name" := rfl

/-- C3: the latest-values endpoint emits exactly one entry per fact_name
occurring in the window (facts with no sample are absent), each entry is one
of that fact's samples with the maximum timestamp — so an earlier sample of
the same fact never appears — and the value component carries only
`(ts, fact_value)`, the fact_name being the key. -/
theorem claim3_latest_per_fact (data : List Sample) (_hne : data ≠ []) :
    ((render_latest_facts data).map Prod.fst = factNames data) ∧
      ∀ e ∈ render_latest_facts data,
        (∃ s ∈ data, s.fact_name = e.1 ∧ s.ts = e.2.1 ∧ s.fact_value = e.2.2) ∧
          ∀ s ∈ data, s.fact_name = e.1 → s.ts ≤ e.2.1 := by
  constructor
  · exact render_latest_map_fst_aux data (factNames data)
      fun q hq => filter_ne_nil_of_mem_factNames hq
  · intro e he
    unfold render_latest_facts at he
    rw [List.mem_filterMap] at he
    obtain ⟨k, hkmem, hfk⟩ := he
    cases hl : (sortByTs (data.filter fun s => decide (s.fact_name = k))).getLast? with
    | none => rw [hl] at hfk; simp at hfk
    | some m =>
      rw [hl] at hfk
      simp only [Option.some.injEq] at hfk
      subst hfk
      have hmmem : m ∈ sortByTs (data.filter fun s => decide (s.fact_name = k)) :=
        mem_of_getLast?_eq hl
      have hmem2 := (sortByTs_perm _).mem_iff.1 hmmem
      rw [List.mem_filter] at hmem2
      obtain ⟨hmdata, hmname⟩ := hmem2
      constructor
      · exact ⟨m, hmdata, of_decide_eq_true hmname, rfl, rfl⟩
      · intro s hs hname
        have hname2 : s.fact_name = k := hname
        have hsf : s ∈ data.filter fun s => decide (s.fact_name = k) := by
          rw [List.mem_filter]
          exact ⟨hs, by simp [hname2]⟩
        have hss := (sortByTs_perm _).mem_iff.2 hsf
        show s.ts ≤ m.ts
        rcases pairwise_rel_getLast (sortByTs_pairwise _) hl s hss with rfl | hle
        · exact le_refl _
        · exact hle

/-- Witness for C3 with two samples of the fact "cpu" at minutes 0 and 5. -/
theorem claim3_witness :
    ((render_latest_facts [⟨0, "cpu", 1⟩, ⟨5, "cpu", 2⟩]).map Prod.fst =
        factNames [⟨0, "cpu", 1⟩, ⟨5, "cpu", 2⟩]) ∧
      ∀ e ∈ render_latest_facts [⟨0, "cpu", 1⟩, ⟨5, "cpu", 2⟩],
        (∃ s ∈ ([⟨0, "cpu", 1⟩, ⟨5, "cpu", 2⟩] : List Sample),
            s.fact_name = e.1 ∧ s.ts = e.2.1 ∧ s.fact_value = e.2.2) ∧
          ∀ s ∈ ([⟨0, "cpu", 1⟩, ⟨5, "cpu", 2⟩] : List Sample),
            s.fact_name = e.1 → s.ts ≤ e.2.1 :=
  claim3_latest_per_fact [⟨0, "cpu", 1⟩, ⟨5, "cpu", 2⟩] (List.cons_ne_nil _ _)

/-- C4: resampling the scenario samples (minutes 0, 4, 12 of "cpu_temp_f"
with values 60, 70, 80) at a 10-minute interval yields exactly the buckets
(00:00, mean 65) and (00:10, 80), and nothing beyond 00:10. -/
theorem claim4_resample_scenario :
    regularize_timeseries 10
        [⟨0, "cpu_temp_f", 60⟩, ⟨4, "cpu_temp_f", 70⟩, ⟨12, "cpu_temp_f", 80⟩] =
      Except.ok [⟨0, "cpu_temp_f", some 65⟩, ⟨10, "cpu_temp_f", some 80⟩] := by
  rw [@regularize_timeseries_single_fact 10 "cpu_temp_f"
    [⟨0, "cpu_temp_f", 60⟩, ⟨4, "cpu_temp_f", 70⟩, ⟨12, "cpu_temp_f", 80⟩]
    (List.cons_ne_nil _ _) (by decide)]
  norm_num [regularizeGroup, minFloored, maxFloored, flooredTs, floorTs, bucketMean,
    List.range_succ]

/-- C5 (counterexample): on an empty input collection `make_fact_lines` does
not return the figure with zero lines — `COLORMAP[0]` raises `KeyError`
because the palette dictionary has keys 3 through 8 only. -/
theorem claim5_counterexample :
    make_fact_lines ⟨[]⟩ [] = Except.error "KeyError" ∧
      make_fact_lines ⟨[]⟩ [] ≠ Except.ok ⟨[]⟩ :=
  ⟨rfl, fun hc => Except.noConfusion hc⟩

/-- C5 (amended): when `make_fact_lines` receives an empty input collection
it raises `KeyError` from the palette lookup at size 0 instead of returning
a chart. -/
theorem claim5_empty_input_keyerror (plot : Figure) :
    make_fact_lines plot [] = Except.error "KeyError" := rfl

/-- C6: within each per-fact Bucketed Series of a successful resampler run,
the timestamps are strictly increasing and consecutive timestamps differ by
exactly the configured step. -/
theorem claim6_series_spacing (step : Nat) (data : List Sample) (out : List Record)
    (k : String) (hstep : 0 < step)
    (h : regularize_timeseries step data = Except.ok out) :
    List.Chain' (fun a b => a.ts < b.ts ∧ b.ts = a.ts + step)
      (out.filter fun r => decide (r.fact_name = k)) := by
  rw [regularize_filter_eq h k]
  rcases eq_or_ne (data.filter fun s => decide (s.fact_name = k)) [] with hnil | hne
  · rw [hnil]
    simp [regularizeGroup]
  · rw [regularizeGroup_eq_of_ne_nil hne, List.chain'_map]
    exact chain_lo_step _ step _ hstep

/-- Witness for C6: the 5-minute resampling of samples at minutes 0 and 7 of
fact "a". -/
theorem claim6_witness :
    List.Chain' (fun a b : Record => a.ts < b.ts ∧ b.ts = a.ts + 5)
      (([⟨0, "a", some 1⟩, ⟨5, "a", some 2⟩] : List Record).filter
        fun r => decide (r.fact_name = "a")) := by
  refine claim6_series_spacing 5 [⟨0, "a", 1⟩, ⟨7, "a", 2⟩] _ "a" (by norm_num) ?_
  rw [@regularize_timeseries_single_fact 5 "a" [⟨0, "a", 1⟩, ⟨7, "a", 2⟩]
    (List.cons_ne_nil _ _) (by decide)]
  norm_num [regularizeGroup, minFloored, maxFloored, flooredTs, floorTs, bucketMean,
    List.range_succ]

/-- C8: flooring a timestamp to the interval is idempotent, and a timestamp
already aligned to a boundary is returned unchanged. -/
theorem claim8_floor_idempotent (step t u : Nat) (h : step ∣ u) :
    floorTs step (floorTs step t) = floorTs step t ∧ floorTs step u = u := by
  constructor
  · rcases Nat.eq_zero_or_pos step with rfl | hpos
    · simp [floorTs]
    · unfold floorTs
      rw [Nat.mul_div_cancel_left _ hpos]
  · obtain ⟨c, rfl⟩ := h
    rcases Nat.eq_zero_or_pos step with rfl | hpos
    · simp [floorTs]
    · unfold floorTs
      rw [Nat.mul_div_cancel_left _ hpos]

/-- Witness for C8 at step 5 with t = 7 and the aligned timestamp 10. -/
theorem claim8_witness :
    floorTs 5 (floorTs 5 7) = floorTs 5 7 ∧ floorTs 5 10 = 10 :=
  claim8_floor_idempotent 5 7 10 ⟨2, rfl⟩

/-- C9: the bucket mean computed by the resampler is invariant under
permutation of the input samples (exactly, in rational arithmetic). -/
theorem claim9_bucket_mean_perm_invariant (step b : Nat) (g g2 : List Sample)
    (h : g.Perm g2) : bucketMean step g b = bucketMean step g2 b := by
  have hp := (h.filter fun s => decide (floorTs step s.ts = b)).map Sample.fact_value
  simp only [bucketMean]
  rcases eq_or_ne
      ((g.filter fun s => decide (floorTs step s.ts = b)).map Sample.fact_value) []
    with hnil | hne
  · have hnil2 :
        ((g2.filter fun s => decide (floorTs step s.ts = b)).map Sample.fact_value) = [] := by
      have hp2 := hp.symm
      rw [hnil] at hp2
      exact hp2.eq_nil
    rw [hnil, hnil2]
  · have hne2 :
        ((g2.filter fun s => decide (floorTs step s.ts = b)).map Sample.fact_value) ≠ [] := by
      intro hc
      apply hne
      rw [hc] at hp
      exact hp.eq_nil
    rw [if_neg (by rw [List.isEmpty_iff]; exact hne),
      if_neg (by rw [List.isEmpty_iff]; exact hne2), hp.sum_eq, hp.length_eq]

/-- Witness for C9: swapping two same-bucket samples leaves the mean
unchanged. -/
theorem claim9_witness :
    bucketMean 5 [⟨0, "a", 60⟩, ⟨4, "a", 70⟩] 0 =
      bucketMean 5 [⟨4, "a", 70⟩, ⟨0, "a", 60⟩] 0 :=
  claim9_bucket_mean_perm_invariant 5 0 _ _ (List.Perm.swap _ _ _)

/-! The store query on an empty fact set, and the palette domain of
`make_fact_lines`. -/

theorem run_sql_template_empty_facts (db : List FactRow) (lb : Nat) :
    run_sql_template db [] lb = [] := by
  have hm : (db.filter fun r =>
      decide (r.fact_name ∈ ([] : List String) ∧ lb ≤ r.ts_utc)) = [] := by
    rw [List.filter_eq_nil_iff]
    intro r _
    simp
  simp only [run_sql_template]
  rw [hm]
  rfl

/-- C7 (counterexample): `db_query` on an empty fact set (default
`regularize=True`) raises rather than returning an empty result. -/
theorem claim7_counterexample :
    db_query [⟨0, "cpu_temp_f", 60⟩] [] 0 true = Except.error "KeyError: fact_name" ∧
      db_query [⟨0, "cpu_temp_f", 60⟩] [] 0 true ≠ Except.ok (Sum.inl []) :=
  ⟨rfl, fun hc => Except.noConfusion hc⟩

/-- C7 (amended): calling `db_query` with an empty set of fact names under
the default `regularize=True` raises `KeyError`: no row matches, and
`regularize_timeseries` raises on the empty collection.  (Against the real
store the call would already fail earlier: the rendered SQL contains the
invalid empty list `in ()`.) -/
theorem claim7_empty_facts_raises (db : List FactRow) (lb : Nat) :
    db_query db [] lb true = Except.error "KeyError: fact_name" := by
  simp only [db_query, run_sql_template_empty_facts]
  rfl

theorem drawLines_ok (data : List Record) :
    ∀ (keys cmap : List String), keys.length ≤ cmap.length →
      ∃ ls, drawLines data cmap keys = Except.ok ls
  | [], cmap, _ => ⟨[], rfl⟩
  | key :: keys, cmap, hlen => by
    have hc : cmap ≠ [] := by
      intro hcn
      rw [hcn] at hlen
      simp at hlen
    obtain ⟨c, hcl⟩ := getLast?_some_of_ne_nil hc
    have hlen2 : keys.length ≤ cmap.dropLast.length := by
      rw [List.length_dropLast]
      simp only [List.length_cons] at hlen
      omega
    obtain ⟨rest, hrest⟩ := drawLines_ok data keys cmap.dropLast hlen2
    refine ⟨⟨key, c, (data.filter fun r => decide (r.fact_name = key)).map fun r =>
      (r.ts, r.fact_value)⟩ :: rest, ?_⟩
    simp only [drawLines, hcl, hrest]

theorem make_fact_lines_ok_iff (plot : Figure) (data : List Record) :
    (∃ p, make_fact_lines plot data = Except.ok p) ↔
      3 ≤ (data.map Record.fact_name).dedup.length ∧
        (data.map Record.fact_name).dedup.length ≤ 8 := by
  constructor
  · rintro ⟨p, hp⟩
    by_contra hnot
    have hcm : COLORMAP (data.map Record.fact_name).dedup.length = none := by
      unfold COLORMAP
      rw [if_neg hnot]
    unfold make_fact_lines at hp
    rw [hcm] at hp
    exact Except.noConfusion hp
  · rintro ⟨h3, h8⟩
    have hcm : COLORMAP (data.map Record.fact_name).dedup.length =
        some (Dark2_8.take (data.map Record.fact_name).dedup.length) := by
      unfold COLORMAP
      rw [if_pos ⟨h3, h8⟩]
    have hlen : (recordNames data).length ≤
        (Dark2_8.take (data.map Record.fact_name).dedup.length).length := by
      simp only [recordNames, List.length_take,
        (sortLe_perm (fun a b => decide (a ≤ b))
          (data.map Record.fact_name).dedup).length_eq]
      exact le_inf (le_refl _) h8
    obtain ⟨ls, hls⟩ := drawLines_ok data (recordNames data) _ hlen
    refine ⟨⟨plot.lines ++ ls⟩, ?_⟩
    unfold make_fact_lines
    rw [hcm]
    dsimp only
    rw [hls]

theorem make_fact_lines_error_iff (plot : Figure) (data : List Record) :
    make_fact_lines plot data = Except.error "KeyError" ↔
      ((data.map Record.fact_name).dedup.length < 3 ∨
        8 < (data.map Record.fact_name).dedup.length) := by
  constructor
  · intro herr
    by_contra hnot
    push_neg at hnot
    obtain ⟨p, hp⟩ := (make_fact_lines_ok_iff plot data).2 ⟨by omega, by omega⟩
    rw [herr] at hp
    exact Except.noConfusion hp
  · intro hn
    have hcm : COLORMAP (data.map Record.fact_name).dedup.length = none := by
      unfold COLORMAP
      rw [if_neg (by omega)]
    unfold make_fact_lines
    rw [hcm]

/-- C10: `make_fact_lines` returns a chart exactly when the number of
distinct fact names of its input lies between 3 and 8 inclusive (the keys
of the Dark2 palette dictionary); for 0, 1, 2, or more than 8 distinct
facts the palette lookup raises `KeyError` before any line is drawn. -/
theorem claim10_palette_domain (plot : Figure) (data : List Record) :
    ((∃ p, make_fact_lines plot data = Except.ok p) ↔
      3 ≤ (data.map Record.fact_name).dedup.length ∧
        (data.map Record.fact_name).dedup.length ≤ 8) ∧
    (make_fact_lines plot data = Except.error "KeyError" ↔
      ((data.map Record.fact_name).dedup.length < 3 ∨
        8 < (data.map Record.fact_name).dedup.length)) :=
  ⟨make_fact_lines_ok_iff plot data, make_fact_lines_error_iff plot data⟩

end SysMonitor
